import Mathlib

/-!
Verification of the key-value store component (`src/models/key_value.py`).

The store keeps an in-memory cache (`_memory_store`, a Python dict) in
front of a SQLite table (`key_value_store`).  The model below is a shallow
embedding of that code:

* Python/protobuf values are the inductive `Val` (null, bool, int, float,
  string, list, string-keyed mapping).  Python floats are modelled as
  rationals, so arithmetic and comparisons are exact.
* The SQLite table is modelled as an association list from keys to rows;
  `INSERT OR REPLACE` is an upsert, `DELETE` an erase.  `json.dumps` /
  `json.loads` are modelled at the JSON-tree level: a value serialised with
  the `json` tag is recovered as the same tree (Python guarantees
  `json.loads(json.dumps(v)) == v` for the string-keyed JSON-representable
  values `Val` covers), a value stored with the `string` tag is recovered
  verbatim as text.
* Persistence failures are modelled by the flag `State.dbOk`: when it is
  false every `sqlite3` operation raises.  The helpers
  `_save_to_database`, `_load_from_database` and `_delete_from_database`
  catch and log such errors (the state is then left unchanged), while the
  inline SQL in `_handle_delete_all` does not and lets the exception
  escape (`Outcome.raised`).
* `time.time()` is passed in as the parameter `now`.
-/

namespace KeyValueStore

/-- Python / protobuf-Struct values handled by the component: `None`,
booleans, integers, floats (modelled as rationals), strings, lists and
string-keyed mappings, nested arbitrarily. -/
inductive Val : Type where
  | null : Val
  | bool (b : Bool) : Val
  | int (n : Int) : Val
  | float (q : Rat) : Val
  | str (s : String) : Val
  | list (xs : List Val) : Val
  | map (kvs : List (String × Val)) : Val

mutual

/-- Structural equality of values is decidable (Python `==` on these). -/
def Val.decEq : (a b : Val) → Decidable (a = b)
  | .null, .null => isTrue rfl
  | .bool a, .bool b =>
    match (inferInstance : Decidable (a = b)) with
    | isTrue h => isTrue (h ▸ rfl)
    | isFalse h => isFalse (fun hh => h (by injection hh))
  | .int a, .int b =>
    match (inferInstance : Decidable (a = b)) with
    | isTrue h => isTrue (h ▸ rfl)
    | isFalse h => isFalse (fun hh => h (by injection hh))
  | .float a, .float b =>
    match (inferInstance : Decidable (a = b)) with
    | isTrue h => isTrue (h ▸ rfl)
    | isFalse h => isFalse (fun hh => h (by injection hh))
  | .str a, .str b =>
    match (inferInstance : Decidable (a = b)) with
    | isTrue h => isTrue (h ▸ rfl)
    | isFalse h => isFalse (fun hh => h (by injection hh))
  | .list as, .list bs =>
    match Val.decEqList as bs with
    | isTrue h => isTrue (h ▸ rfl)
    | isFalse h => isFalse (fun hh => h (by injection hh))
  | .map as, .map bs =>
    match Val.decEqMap as bs with
    | isTrue h => isTrue (h ▸ rfl)
    | isFalse h => isFalse (fun hh => h (by injection hh))
  | .null, .bool _ => isFalse (fun h => Val.noConfusion h)
  | .null, .int _ => isFalse (fun h => Val.noConfusion h)
  | .null, .float _ => isFalse (fun h => Val.noConfusion h)
  | .null, .str _ => isFalse (fun h => Val.noConfusion h)
  | .null, .list _ => isFalse (fun h => Val.noConfusion h)
  | .null, .map _ => isFalse (fun h => Val.noConfusion h)
  | .bool _, .null => isFalse (fun h => Val.noConfusion h)
  | .bool _, .int _ => isFalse (fun h => Val.noConfusion h)
  | .bool _, .float _ => isFalse (fun h => Val.noConfusion h)
  | .bool _, .str _ => isFalse (fun h => Val.noConfusion h)
  | .bool _, .list _ => isFalse (fun h => Val.noConfusion h)
  | .bool _, .map _ => isFalse (fun h => Val.noConfusion h)
  | .int _, .null => isFalse (fun h => Val.noConfusion h)
  | .int _, .bool _ => isFalse (fun h => Val.noConfusion h)
  | .int _, .float _ => isFalse (fun h => Val.noConfusion h)
  | .int _, .str _ => isFalse (fun h => Val.noConfusion h)
  | .int _, .list _ => isFalse (fun h => Val.noConfusion h)
  | .int _, .map _ => isFalse (fun h => Val.noConfusion h)
  | .float _, .null => isFalse (fun h => Val.noConfusion h)
  | .float _, .bool _ => isFalse (fun h => Val.noConfusion h)
  | .float _, .int _ => isFalse (fun h => Val.noConfusion h)
  | .float _, .str _ => isFalse (fun h => Val.noConfusion h)
  | .float _, .list _ => isFalse (fun h => Val.noConfusion h)
  | .float _, .map _ => isFalse (fun h => Val.noConfusion h)
  | .str _, .null => isFalse (fun h => Val.noConfusion h)
  | .str _, .bool _ => isFalse (fun h => Val.noConfusion h)
  | .str _, .int _ => isFalse (fun h => Val.noConfusion h)
  | .str _, .float _ => isFalse (fun h => Val.noConfusion h)
  | .str _, .list _ => isFalse (fun h => Val.noConfusion h)
  | .str _, .map _ => isFalse (fun h => Val.noConfusion h)
  | .list _, .null => isFalse (fun h => Val.noConfusion h)
  | .list _, .bool _ => isFalse (fun h => Val.noConfusion h)
  | .list _, .int _ => isFalse (fun h => Val.noConfusion h)
  | .list _, .float _ => isFalse (fun h => Val.noConfusion h)
  | .list _, .str _ => isFalse (fun h => Val.noConfusion h)
  | .list _, .map _ => isFalse (fun h => Val.noConfusion h)
  | .map _, .null => isFalse (fun h => Val.noConfusion h)
  | .map _, .bool _ => isFalse (fun h => Val.noConfusion h)
  | .map _, .int _ => isFalse (fun h => Val.noConfusion h)
  | .map _, .float _ => isFalse (fun h => Val.noConfusion h)
  | .map _, .str _ => isFalse (fun h => Val.noConfusion h)
  | .map _, .list _ => isFalse (fun h => Val.noConfusion h)

/-- Decidable equality of value lists. -/
def Val.decEqList : (as bs : List Val) → Decidable (as = bs)
  | [], [] => isTrue rfl
  | [], _ :: _ => isFalse (fun h => List.noConfusion h)
  | _ :: _, [] => isFalse (fun h => List.noConfusion h)
  | a :: as, b :: bs =>
    match Val.decEq a b, Val.decEqList as bs with
    | isTrue h1, isTrue h2 => isTrue (by rw [h1, h2])
    | isFalse h1, _ => isFalse (fun hh => h1 (by injection hh))
    | isTrue _, isFalse h2 => isFalse (fun hh => h2 (by injection hh))

/-- Decidable equality of string-keyed value mappings. -/
def Val.decEqMap : (as bs : List (String × Val)) → Decidable (as = bs)
  | [], [] => isTrue rfl
  | [], _ :: _ => isFalse (fun h => List.noConfusion h)
  | _ :: _, [] => isFalse (fun h => List.noConfusion h)
  | (k1, v1) :: as, (k2, v2) :: bs =>
    match (inferInstance : Decidable (k1 = k2)), Val.decEq v1 v2, Val.decEqMap as bs with
    | isTrue hk, isTrue h1, isTrue h2 => isTrue (by rw [hk, h1, h2])
    | isFalse hk, _, _ =>
      isFalse (fun hh => hk (by injection hh with h1 h2; injection h1))
    | isTrue _, isFalse h1, _ =>
      isFalse (fun hh => h1 (by injection hh with h1 h2; injection h1))
    | isTrue _, isTrue _, isFalse h2 => isFalse (fun hh => h2 (by injection hh))

end

instance : DecidableEq Val := Val.decEq

/-- Python truthiness (`if not key:`): `None`, `False`, `0`, `0.0`, `""`,
`[]` and `{}` are falsy, everything else truthy. -/
def pyTruthy : Val → Bool
  | .null => false
  | .bool b => b
  | .int n => decide (n ≠ 0)
  | .float q => decide (q ≠ 0)
  | .str s => decide (s ≠ "")
  | .list xs => decide (xs ≠ [])
  | .map kvs => decide (kvs ≠ [])

/-- Digits of a decimal numeral folded into a natural number. -/
def natOfDigits (l : List Char) : Nat :=
  l.foldl (fun a c => 10 * a + (c.toNat - 48)) 0

/-- Rational addition in a kernel-computable form (Batteries marks
`Rat.add` irreducible, which blocks `decide`); `ratAdd_eq_add` shows it is
the ordinary `+`. -/
def ratAdd (a b : Rat) : Rat :=
  mkRat (a.num * b.den + b.num * a.den) (a.den * b.den)

theorem ratAdd_eq_add (a b : Rat) : ratAdd a b = a + b :=
  (Rat.add_def' a b).symm

/-- Python `float(s)` on a string, for the plain decimal numerals the
claims exercise: an optional sign, then digits with an optional decimal
point (digits on at least one side).  Pythonic extras (exponents,
`inf`/`nan`, underscores, surrounding whitespace) are not modelled; no
claim feeds them in. -/
def pyFloatOfString (s : String) : Option Rat :=
  let cs := s.toList
  let signed : Bool × List Char :=
    match cs with
    | '-' :: t => (true, t)
    | '+' :: t => (false, t)
    | t => (false, t)
  let neg := signed.1
  let rest := signed.2
  let signedRat : Int → Nat → Rat := fun n d => if neg then mkRat (-n) d else mkRat n d
  if rest.contains '.' then
    let intPart := rest.takeWhile (fun c => c ≠ '.')
    let fracPart := (rest.dropWhile (fun c => c ≠ '.')).tail
    if fracPart.contains '.' then none
    else if intPart.isEmpty ∧ fracPart.isEmpty then none
    else if intPart.all Char.isDigit ∧ fracPart.all Char.isDigit then
      some (signedRat (natOfDigits intPart * 10 ^ fracPart.length + natOfDigits fracPart)
        (10 ^ fracPart.length))
    else none
  else if rest ≠ [] ∧ rest.all Char.isDigit then
    some (signedRat (natOfDigits rest) 1)
  else none

/-- Python `str(x)`.  Exact for `None`, booleans, integers and strings —
the cases the handlers and claims exercise.  The float case would be
Python's shortest-repr rendering and the composite cases the nested
`repr`; they are abbreviated here and no claim depends on them. -/
def pyStr : Val → String
  | .null => "None"
  | .bool true => "True"
  | .bool false => "False"
  | .int n => toString n
  | .float q => toString q
  | .str s => s
  | .list _ => "[...]"
  | .map _ => "\x7b...\x7d"

/-- Python `float(str(x))`, the conversion `_handle_set` applies to
`ttl_seconds` (lines 244–245): numbers reparse to themselves, strings go
through `float()`, and `str` of a boolean (`"True"`/`"False"`), a list or
a dict raises `ValueError` (`none`). -/
def floatOfStr : Val → Option Rat
  | .int n => some (n : Rat)
  | .float q => some q
  | .str s => pyFloatOfString s
  | .null => none
  | .bool _ => none
  | .list _ => none
  | .map _ => none

/-- One entry of `_memory_store`: the dict built at lines 251–256 (from
`set`) or 78–84 (from a database load).  `ttl_seconds` holds whatever the
caller supplied (a database load puts the stored text, or null, here);
`expires_at` is absent for entries that never expire. -/
structure Entry : Type where
  value : Val
  ttl_seconds : Val
  created_at : Rat
  expires_at : Option Rat
deriving DecidableEq

/-- The `value`/`value_type` columns: `json.dumps` output tagged `'json'`
(kept as the JSON tree it prints) or `str()` output tagged `'string'`. -/
inductive StoredValue : Type where
  | json (v : Val) : StoredValue
  | plain (s : String) : StoredValue
deriving DecidableEq

/-- One row of the `key_value_store` table (minus the primary-key column,
which indexes the association list). -/
structure Row : Type where
  stored : StoredValue
  ttl : Option String
  created_at : Rat
  expires_at : Option Rat
deriving DecidableEq

/-- The component's mutable state: the in-memory dict, the SQLite table,
and whether SQLite operations currently succeed (`dbOk = false` models an
I/O failure such as the database file being inaccessible). -/
structure State : Type where
  cache : List (String × Entry)
  db : List (String × Row)
  dbOk : Bool
deriving DecidableEq

/-- A `do_command` argument.  `Mapping.get` returns `None` for an absent
field, and Python cannot distinguish an absent field from an explicit
null, so absent fields are `Val.null`. -/
structure Cmd : Type where
  command : Val
  key : Val
  value : Val
  ttl_seconds : Val
deriving DecidableEq

/-- First binding of a key in an association list (dict lookup; keys are
unique in any list built by `upsert`/`eraseKey`). -/
def lookup? {α : Type} : List (String × α) → String → Option α
  | [], _ => none
  | (k, v) :: t, k' => if k' = k then some v else lookup? t k'

/-- Remove every binding of a key (dict `del` / SQL `DELETE ... WHERE`). -/
def eraseKey {α : Type} (m : List (String × α)) (k : String) : List (String × α) :=
  m.filter (fun p => p.1 ≠ k)

/-- Insert or replace a binding (dict assignment / `INSERT OR REPLACE`).
Placement in the list differs from dict insertion order; no claim reads
iteration order. -/
def upsert {α : Type} (m : List (String × α)) (k : String) (v : α) : List (String × α) :=
  (k, v) :: eraseKey m k

/-- `_save_to_database` lines 92–98: dicts, lists, ints, floats, bools and
`None` are tagged `'json'` and serialised with `json.dumps`; anything else
(here: strings) is tagged `'string'` and stored via `str()`. -/
def encodeValue : Val → StoredValue
  | .null => .json .null
  | .bool b => .json (.bool b)
  | .int n => .json (.int n)
  | .float q => .json (.float q)
  | .list xs => .json (.list xs)
  | .map kvs => .json (.map kvs)
  | .str s => .plain s

/-- `_load_from_database` lines 68–76: a `'json'` row is `json.loads`-ed
(which succeeds on `json.dumps` output, so the decode-error fallback to
the raw text is unreachable); any other tag is returned as the text. -/
def decodeStored : StoredValue → Val
  | .json v => v
  | .plain s => .str s

/-- The `_memory_store` dict built from a row at lines 78–84. -/
def rowToEntry (r : Row) : Entry :=
  { value := decodeStored r.stored
    ttl_seconds := match r.ttl with | some s => Val.str s | none => Val.null
    created_at := r.created_at
    expires_at := r.expires_at }

/-- Line 67's keep test at load time: `expires_at is None or expires_at >
current_time`. -/
def notExpiredRow (r : Row) (now : Rat) : Bool :=
  match r.expires_at with
  | none => true
  | some t => decide (now < t)

/-- Line 126's expiry test in the cleanup sweep: `expires_at is not None
and expires_at <= current_time`. -/
def isExpired (e : Entry) (now : Rat) : Bool :=
  match e.expires_at with
  | none => false
  | some t => decide (t ≤ now)

/-- `_delete_from_database` (lines 110–118): the SQL `DELETE` by key; an
I/O failure is caught and logged, leaving the state unchanged. -/
def delete_from_database (s : State) (k : String) : State :=
  if s.dbOk then { s with db := eraseKey s.db k } else s

/-- `_save_to_database` (lines 88–108): encode and `INSERT OR REPLACE`;
an I/O failure is caught and logged, leaving the state unchanged. -/
def save_to_database (s : State) (k : String) (v : Val) (ttlStr : Option String)
    (createdAt : Rat) (expiresAt : Option Rat) : State :=
  if s.dbOk then
    { s with db := upsert s.db k ⟨encodeValue v, ttlStr, createdAt, expiresAt⟩ }
  else s

/-- `_load_from_database` (lines 50–87): select all rows, clear the dict,
insert every non-expired row decoded.  On an I/O failure (raised by
`connect`/`execute`, before the `clear()`) nothing changes. -/
def load_from_database (s : State) (now : Rat) : State :=
  if s.dbOk then
    { s with cache :=
        (s.db.filter (fun p => notExpiredRow p.2 now)).map (fun p => (p.1, rowToEntry p.2)) }
  else s

/-- The body of the cleanup loop at lines 130–132: `del` the key from the
dict, then delete it from the database. -/
def cleanup_step (st : State) (k : String) : State :=
  delete_from_database { st with cache := eraseKey st.cache k } k

/-- The `expired_keys` list of `_cleanup_expired_keys` (lines 123–127). -/
def expiredKeysOf (cache : List (String × Entry)) (now : Rat) : List String :=
  (cache.filter (fun p => isExpired p.2 now)).map (fun p => p.1)

/-- `_cleanup_expired_keys` (lines 120–132): collect the keys of cached
entries already expired at `now`, then remove each from the dict and issue
a database delete for it. -/
def cleanup_expired_keys (s : State) (now : Rat) : State :=
  (expiredKeysOf s.cache now).foldl cleanup_step s

/-- A `do_command` response (a Python dict with string keys). -/
abbrev Resp : Type := List (String × Val)

/-- What `do_command` does as seen by its caller: a returned response
dict, or an exception escaping with the state as the handler left it. -/
inductive Outcome : Type where
  | resp (r : Resp) (s : State) : Outcome
  | raised (s : State) : Outcome
deriving DecidableEq

/-- The response dict of an outcome (the empty dict for a raised
exception, which has no response). -/
def outResp : Outcome → Resp
  | .resp r _ => r
  | .raised _ => []

/-- The component state after an outcome. -/
def outState : Outcome → State
  | .resp _ s => s
  | .raised s => s

/-- Whether the outcome is an exception escaping to the caller. -/
def isRaised : Outcome → Bool
  | .resp _ _ => false
  | .raised _ => true

/-- Lines 241–248 of `_handle_set`: when `ttl_seconds` is present,
`ttl_str = str(ttl_seconds)` and `expires_at = now + float(ttl_str)`;
a `ValueError`/`TypeError` from `float` yields `none` (the handler then
errors out).  When absent, no expiry. -/
def ttlParse (ttl : Val) (now : Rat) : Option (Option String × Option Rat) :=
  if ttl = Val.null then some (none, none)
  else
    match floatOfStr ttl with
    | some f => some (some (pyStr ttl), some (ratAdd now f))
    | none => none

/-- `_handle_set` (lines 228–261). -/
def handle_set (cmd : Cmd) (s : State) (now : Rat) : Outcome :=
  if cmd.key = Val.null ∨ cmd.value = Val.null then
    .resp [("error", .str "Both 'key' and 'value' are required for set command")] s
  else
    match ttlParse cmd.ttl_seconds now with
    | none => .resp [("error", .str "ttl_seconds must be a valid number")] s
    | some (ttlStr, expiresAt) =>
      let keyS := pyStr cmd.key
      let entry : Entry := ⟨cmd.value, cmd.ttl_seconds, now, expiresAt⟩
      let s1 : State := { s with cache := upsert s.cache keyS entry }
      let s2 := save_to_database s1 keyS cmd.value ttlStr now expiresAt
      .resp [("success", .bool true), ("key", .str keyS), ("value", cmd.value)] s2

/-- The success response of `_handle_get` (lines 275–281 / 289–295). -/
def getOkResp (k : String) (e : Entry) : Resp :=
  [("success", .bool true), ("key", .str k), ("value", e.value),
   ("created_at", .float e.created_at),
   ("expires_at", match e.expires_at with | some t => .float t | none => .null)]

/-- The not-found error of `_handle_get` line 297 (the f-string formats
the original `key` object). -/
def notFoundResp (key : Val) : Resp :=
  [("error", .str ("Key '" ++ pyStr key ++ "' not found"))]

/-- `_handle_get` (lines 263–297): validate the key, sweep expired
entries, look the key up in the dict; on a miss with an empty dict,
reload from the database and look again. -/
def handle_get (cmd : Cmd) (s : State) (now : Rat) : Outcome :=
  if ¬ pyTruthy cmd.key then
    .resp [("error", .str "'key' is required for get command")] s
  else
    let s1 := cleanup_expired_keys s now
    let keyS := pyStr cmd.key
    match lookup? s1.cache keyS with
    | some e => .resp (getOkResp keyS e) s1
    | none =>
      if s1.cache.isEmpty then
        let s2 := load_from_database s1 now
        match lookup? s2.cache keyS with
        | some e => .resp (getOkResp keyS e) s2
        | none => .resp (notFoundResp cmd.key) s2
      else .resp (notFoundResp cmd.key) s1

/-- `_handle_delete` (lines 299–315): validate the key, remove it from
the dict if present, delete it from the database, report success. -/
def handle_delete (cmd : Cmd) (s : State) : Outcome :=
  if ¬ pyTruthy cmd.key then
    .resp [("error", .str "'key' is required for delete command")] s
  else
    let keyS := pyStr cmd.key
    let s1 : State := { s with cache := eraseKey s.cache keyS }
    let s2 := delete_from_database s1 keyS
    .resp [("success", .bool true), ("key", .str keyS), ("deleted", .bool true)] s2

/-- `_handle_delete_all` (lines 317–325): clear the dict, then run the
SQL `DELETE` — with no try/except, so a failing database operation raises
out of the handler (after the dict is already cleared).  The reported
`deleted_count` is `len` of the just-cleared dict. -/
def handle_delete_all (s : State) : Outcome :=
  let s1 : State := { s with cache := [] }
  if s1.dbOk then
    let s2 : State := { s1 with db := [] }
    .resp [("success", .bool true), ("deleted_count", .int (Int.ofNat s2.cache.length))] s2
  else .raised s1

/-- `do_command` (lines 207–226): dispatch on the `command` field. -/
def do_command (cmd : Cmd) (s : State) (now : Rat) : Outcome :=
  if cmd.command = Val.str "set" then handle_set cmd s now
  else if cmd.command = Val.str "get" then handle_get cmd s now
  else if cmd.command = Val.str "delete" then handle_delete cmd s
  else if cmd.command = Val.str "delete_all" then handle_delete_all s
  else .resp [("error", .str ("Unknown command: " ++ pyStr cmd.command))] s

/-- A `set` command envelope. -/
def setCmd (k v ttl : Val) : Cmd := ⟨.str "set", k, v, ttl⟩

/-- A `get` command envelope. -/
def getCmd (k : Val) : Cmd := ⟨.str "get", k, .null, .null⟩

/-- A `delete` command envelope. -/
def deleteCmd (k : Val) : Cmd := ⟨.str "delete", k, .null, .null⟩

/-- A `delete_all` command envelope. -/
def deleteAllCmd : Cmd := ⟨.str "delete_all", .null, .null, .null⟩


/-! ### Association-list lemmas -/

theorem lookup_eraseKey {α : Type} (m : List (String × α)) (k k' : String) :
    lookup? (eraseKey m k) k' = if k' = k then none else lookup? m k' := by
  induction m with
  | nil => simp [eraseKey, lookup?]
  | cons p t ih =>
    obtain ⟨a, b⟩ := p
    by_cases hak : a = k
    · subst hak
      by_cases hk : k' = a <;> simp [eraseKey, lookup?, hk] at ih ⊢ <;> simpa [eraseKey] using ih
    · by_cases hk : k' = a
      · subst hk
        simp [eraseKey, lookup?, hak, Ne.symm hak]
      · simp [eraseKey, lookup?, hak, hk] at ih ⊢
        simpa [eraseKey] using ih

theorem lookup_upsert {α : Type} (m : List (String × α)) (k : String) (v : α) (k' : String) :
    lookup? (upsert m k v) k' = if k' = k then some v else lookup? m k' := by
  by_cases hk : k' = k <;> simp [upsert, lookup?, hk, lookup_eraseKey]

theorem mem_of_lookup {α : Type} {m : List (String × α)} {k : String} {v : α}
    (h : lookup? m k = some v) : (k, v) ∈ m := by
  induction m with
  | nil => simp [lookup?] at h
  | cons p t ih =>
    obtain ⟨a, b⟩ := p
    by_cases hk : k = a
    · subst hk
      simp [lookup?] at h
      simp [h]
    · simp [lookup?, hk] at h
      exact List.mem_cons_of_mem _ (ih h)

theorem lookup_map_entry {α β : Type} (f : α → β) (m : List (String × α)) (k : String) :
    lookup? (m.map (fun p => (p.1, f p.2))) k = (lookup? m k).map f := by
  induction m with
  | nil => simp [lookup?]
  | cons p t ih =>
    obtain ⟨a, b⟩ := p
    by_cases hk : k = a <;> simp [lookup?, hk, ih]

theorem lookup_filter_of_not_mem_keys {α : Type} {ks : List String}
    (m : List (String × α)) {k : String} (hk : k ∉ ks) :
    lookup? (m.filter (fun p => p.1 ∉ ks)) k = lookup? m k := by
  induction m with
  | nil => simp [lookup?]
  | cons p t ih =>
    obtain ⟨a, b⟩ := p
    by_cases hks : a ∈ ks
    · have hka : k ≠ a := fun h => hk (h ▸ hks)
      rw [List.filter_cons_of_neg (by simp [hks])]
      rw [show lookup? ((a, b) :: t) k = lookup? t k by simp [lookup?, hka]]
      exact ih
    · rw [List.filter_cons_of_pos (by simp [hks])]
      by_cases hka : k = a
      · simp [lookup?, hka]
      · simp only [lookup?, if_neg hka]
        exact ih

theorem not_mem_keys_eraseKey {α : Type} (m : List (String × α)) (k : String)
    {p : String × α} (hp : p ∈ eraseKey m k) : p.1 ≠ k := by
  have := List.of_mem_filter hp
  simpa using this

/-! ### The expiry sweep as a filter -/

theorem cleanup_step_eq (s : State) (k : String) :
    cleanup_step s k =
      ⟨eraseKey s.cache k, if s.dbOk then eraseKey s.db k else s.db, s.dbOk⟩ := by
  cases hdb : s.dbOk <;> simp [cleanup_step, delete_from_database, hdb]

theorem filter_eraseKey_cons {α : Type} (m : List (String × α)) (k : String)
    (t : List String) :
    (eraseKey m k).filter (fun p => p.1 ∉ t) = m.filter (fun p => p.1 ∉ k :: t) := by
  rw [eraseKey, List.filter_filter]
  refine List.filter_congr (fun x _ => ?_)
  by_cases h1 : x.1 = k <;> by_cases h2 : x.1 ∈ t <;> simp [h1, h2]

theorem foldl_cleanup_step (ks : List String) (s : State) :
    ks.foldl cleanup_step s =
      ⟨s.cache.filter (fun p => p.1 ∉ ks),
       if s.dbOk then s.db.filter (fun p => p.1 ∉ ks) else s.db,
       s.dbOk⟩ := by
  induction ks generalizing s with
  | nil =>
    obtain ⟨c, d, ok⟩ := s
    cases ok <;> simp
  | cons k t ih =>
    rw [List.foldl_cons, cleanup_step_eq, ih]
    obtain ⟨c, d, ok⟩ := s
    cases ok
    · simp only [State.mk.injEq]
      refine ⟨filter_eraseKey_cons c k t, ?_, trivial⟩
      simp
    · simp only [State.mk.injEq]
      refine ⟨filter_eraseKey_cons c k t, ?_, trivial⟩
      simp only [if_true]
      exact filter_eraseKey_cons d k t

theorem cleanup_expired_keys_eq (s : State) (now : Rat) :
    cleanup_expired_keys s now =
      ⟨s.cache.filter (fun p => p.1 ∉ expiredKeysOf s.cache now),
       if s.dbOk then s.db.filter (fun p => p.1 ∉ expiredKeysOf s.cache now) else s.db,
       s.dbOk⟩ :=
  foldl_cleanup_step _ _

theorem mem_expiredKeysOf {cache : List (String × Entry)} {now : Rat} {k : String} :
    k ∈ expiredKeysOf cache now ↔ ∃ e, (k, e) ∈ cache ∧ isExpired e now = true := by
  constructor
  · intro h
    obtain ⟨p, hp, hk⟩ := List.mem_map.1 h
    obtain ⟨hmem, hexp⟩ := List.mem_filter.1 hp
    refine ⟨p.2, ?_, by simpa using hexp⟩
    have hpk : p = (k, p.2) := by
      obtain ⟨a, b⟩ := p
      simp only at hk
      simp [hk]
    exact hpk ▸ hmem
  · rintro ⟨e, hmem, hexp⟩
    exact List.mem_map.2 ⟨(k, e), List.mem_filter.2 ⟨hmem, by simpa using hexp⟩, rfl⟩

theorem eq_of_mem_of_mem_nodup {α : Type} {m : List (String × α)}
    (h : (m.map Prod.fst).Nodup) {p q : String × α}
    (hp : p ∈ m) (hq : q ∈ m) (hk : p.1 = q.1) : p = q := by
  induction m with
  | nil => cases hp
  | cons a t ih =>
    rw [List.map_cons, List.nodup_cons] at h
    rcases List.mem_cons.1 hp with hp1 | hp1 <;> rcases List.mem_cons.1 hq with hq1 | hq1
    · rw [hp1, hq1]
    · exfalso
      apply h.1
      rw [← hp1, hk]
      exact List.mem_map_of_mem Prod.fst hq1
    · exfalso
      apply h.1
      rw [← hq1, ← hk]
      exact List.mem_map_of_mem Prod.fst hp1
    · exact ih h.2 hp1 hq1

/-! ### Small helpers about the handlers -/

/-- Field access in a response dict. -/
def respField (r : Resp) (f : String) : Option Val := lookup? r f

theorem do_command_set_eq (k v ttl : Val) (s : State) (now : Rat) :
    do_command (setCmd k v ttl) s now = handle_set (setCmd k v ttl) s now := by
  simp [do_command, setCmd]

theorem do_command_get_eq (k : Val) (s : State) (now : Rat) :
    do_command (getCmd k) s now = handle_get (getCmd k) s now := by
  simp [do_command, getCmd]

theorem do_command_delete_eq (k : Val) (s : State) (now : Rat) :
    do_command (deleteCmd k) s now = handle_delete (deleteCmd k) s := by
  simp [do_command, deleteCmd]

theorem do_command_delete_all_eq (s : State) (now : Rat) :
    do_command deleteAllCmd s now = handle_delete_all s := by
  simp [do_command, deleteAllCmd]

theorem save_to_database_cache (s : State) (k : String) (v : Val) (ts : Option String)
    (c : Rat) (e : Option Rat) : (save_to_database s k v ts c e).cache = s.cache := by
  cases hdb : s.dbOk <;> simp [save_to_database, hdb]

theorem save_to_database_dbOk (s : State) (k : String) (v : Val) (ts : Option String)
    (c : Rat) (e : Option Rat) : (save_to_database s k v ts c e).dbOk = s.dbOk := by
  cases hdb : s.dbOk <;> simp [save_to_database, hdb]

theorem handle_set_ok (s : State) (k : String) (v ttl : Val) (now : Rat)
    (ts : Option String) (ex : Option Rat)
    (hv : v ≠ Val.null) (hp : ttlParse ttl now = some (ts, ex)) :
    handle_set (setCmd (.str k) v ttl) s now =
      .resp [("success", .bool true), ("key", .str k), ("value", v)]
        (save_to_database { s with cache := upsert s.cache k ⟨v, ttl, now, ex⟩ }
          k v ts now ex) := by
  simp [handle_set, setCmd, hv, hp, pyStr]

theorem cleanup_of_empty_cache (s : State) (now : Rat) (h : s.cache = []) :
    cleanup_expired_keys s now = s := by
  simp [cleanup_expired_keys, expiredKeysOf, h]

theorem filter_prop_of_lookup {α : Type} {p : String × α → Bool}
    {m : List (String × α)} {k : String} {v : α}
    (h : lookup? (m.filter p) k = some v) : p (k, v) = true :=
  (List.mem_filter.1 (mem_of_lookup h)).2

/-! ### C8: a null value is rejected before any mutation -/

/-- C8: for every key, a `set` whose value is null returns the
missing-key-or-value error and leaves the state (both the cache and the
persistent store) unchanged; a null value is never stored. -/
theorem set_null_value_rejected (keyv ttl : Val) (s : State) (now : Rat) :
    do_command ⟨.str "set", keyv, .null, ttl⟩ s now =
      .resp [("error", .str "Both 'key' and 'value' are required for set command")] s := by
  simp [do_command, handle_set]

/-! ### C10: delete_all reports a count of zero -/

/-- C10: when the database operation succeeds, `delete_all` always
responds with `success` and `deleted_count = 0` — whatever was stored
beforehand — because the count is `len` of the dict taken after it was
cleared; both tiers end empty. -/
theorem delete_all_reports_zero_count (s : State) (now : Rat) (h : s.dbOk = true) :
    do_command deleteAllCmd s now =
      .resp [("success", .bool true), ("deleted_count", .int 0)] ⟨[], [], true⟩ := by
  obtain ⟨c, d, ok⟩ := s
  cases h
  simp [do_command_delete_all_eq, handle_delete_all]

/-- Witness for C10 at a state holding two live entries. -/
theorem delete_all_reports_zero_count_witness :
    (State.dbOk ⟨[("a", ⟨.int 1, .null, 0, none⟩), ("b", ⟨.str "x", .null, 0, none⟩)],
        [("a", ⟨.json (.int 1), none, 0, none⟩)], true⟩ = true) ∧
    do_command deleteAllCmd
      ⟨[("a", ⟨.int 1, .null, 0, none⟩), ("b", ⟨.str "x", .null, 0, none⟩)],
        [("a", ⟨.json (.int 1), none, 0, none⟩)], true⟩ 5 =
      .resp [("success", .bool true), ("deleted_count", .int 0)] ⟨[], [], true⟩ :=
  ⟨rfl, delete_all_reports_zero_count _ 5 rfl⟩

/-! ### C3: do_command can raise (delete_all without try/except) -/

/-- C3 (failing case): with one cached and one persisted entry and a
failing database, `delete_all` lets the `sqlite3` exception escape
`do_command` — after the in-memory cache was already cleared, leaving the
persistent row behind.  The other handlers catch persistence errors, but
this one does not, so `do_command` does not always return a structured
result. -/
theorem delete_all_raises_on_db_failure :
    do_command deleteAllCmd
      ⟨[("k", ⟨.int 1, .null, 0, none⟩)], [("k", ⟨.json (.int 1), none, 0, none⟩)], false⟩ 0 =
      .raised ⟨[], [("k", ⟨.json (.int 1), none, 0, none⟩)], false⟩ := by
  decide

/-! ### C7: delete always succeeds and reports deleted = true -/

/-- C7: for every valid (non-empty string) key and every state — whether
or not the key is present, and whether or not the database works —
`delete` returns exactly `success = true`, the key, and `deleted = true`;
it never raises and never reports a not-found error. -/
theorem delete_always_reports_deleted (s : State) (k : String) (now : Rat)
    (hk : k ≠ "") :
    outResp (do_command (deleteCmd (.str k)) s now) =
      [("success", .bool true), ("key", .str k), ("deleted", .bool true)] ∧
    isRaised (do_command (deleteCmd (.str k)) s now) = false := by
  rw [do_command_delete_eq]
  simp [handle_delete, deleteCmd, pyTruthy, hk, pyStr, outResp, isRaised]

/-- Witness for C7: deleting a key that was never present still reports
`deleted = true`. -/
theorem delete_always_reports_deleted_witness :
    ("ghost" ≠ "") ∧
    (outResp (do_command (deleteCmd (.str "ghost")) ⟨[], [], true⟩ 3) =
      [("success", .bool true), ("key", .str "ghost"), ("deleted", .bool true)] ∧
    isRaised (do_command (deleteCmd (.str "ghost")) ⟨[], [], true⟩ 3) = false) :=
  ⟨by decide, delete_always_reports_deleted ⟨[], [], true⟩ "ghost" 3 (by decide)⟩

/-! ### C2: TTL validation -/

/-- C2 (counterexample): `ttl_seconds = -5` does not parse as a
*non-negative* number, yet the `set` succeeds and stores the entry in both
tiers (with `expires_at = 95`, already in the past of `now = 100`):
`float(str(-5))` parses fine and the handler never checks the sign. -/
theorem negative_ttl_accepted_cex :
    do_command (setCmd (.str "k") (.int 1) (.int (-5))) ⟨[], [], true⟩ 100 =
      .resp [("success", .bool true), ("key", .str "k"), ("value", .int 1)]
        ⟨[("k", ⟨.int 1, .int (-5), 100, some 95⟩)],
         [("k", ⟨.json (.int 1), some "-5", 100, some 95⟩)], true⟩ := by
  decide

/-- C2 (amended): when `ttl_seconds` is present but does not parse as a
number at all (`float(str(ttl_seconds))` raises), the `set` returns the
invalid-TTL error and leaves the whole state — cache and persistent store
— unchanged.  (A value that parses as a negative number is accepted, see
the counterexample.) -/
theorem unparseable_ttl_rejected (s : State) (keyv v ttl : Val) (now : Rat)
    (hk : keyv ≠ Val.null) (hv : v ≠ Val.null) (hn : ttl ≠ Val.null)
    (httl : floatOfStr ttl = none) :
    do_command (setCmd keyv v ttl) s now =
      .resp [("error", .str "ttl_seconds must be a valid number")] s := by
  rw [do_command_set_eq]
  simp [handle_set, setCmd, hk, hv, ttlParse, hn, httl]

/-- Witness for C2's amended theorem: `ttl_seconds = "abc"`. -/
theorem unparseable_ttl_rejected_witness :
    (Val.str "k" ≠ Val.null) ∧ (Val.int 1 ≠ Val.null) ∧ (Val.str "abc" ≠ Val.null) ∧
    floatOfStr (.str "abc") = none ∧
    do_command (setCmd (.str "k") (.int 1) (.str "abc"))
        ⟨[("j", ⟨.int 2, .null, 0, none⟩)], [], true⟩ 7 =
      .resp [("error", .str "ttl_seconds must be a valid number")]
        ⟨[("j", ⟨.int 2, .null, 0, none⟩)], [], true⟩ :=
  ⟨by decide, by decide, by decide, by decide,
    unparseable_ttl_rejected _ _ _ _ 7 (by decide) (by decide) (by decide) (by decide)⟩

/-! ### C9: the empty-string key is settable but not gettable/deletable -/

/-- C9: `set` only rejects an absent/null key, so `set("", v)` succeeds
and stores an entry under the empty-string key; but `get` and `delete`
reject the empty string as falsy, returning their missing-key errors and
changing nothing — so such an entry is unreachable through them and
`delete_all` (which always clears the cache, even when the database
operation raises) or expiry are the only ways it goes away. -/
theorem empty_string_key_asymmetry (v : Val) (s sg sd sda : State)
    (now ng nd nda : Rat) (hv : v ≠ Val.null) :
    (outResp (do_command (setCmd (.str "") v .null) s now) =
      [("success", .bool true), ("key", .str ""), ("value", v)] ∧
     lookup? (outState (do_command (setCmd (.str "") v .null) s now)).cache "" =
      some ⟨v, .null, now, none⟩) ∧
    do_command (getCmd (.str "")) sg ng =
      .resp [("error", .str "'key' is required for get command")] sg ∧
    do_command (deleteCmd (.str "")) sd nd =
      .resp [("error", .str "'key' is required for delete command")] sd ∧
    lookup? (outState (do_command deleteAllCmd sda nda)).cache "" = none := by
  have hset := handle_set_ok s "" v .null now none none hv (by simp [ttlParse])
  refine ⟨⟨?_, ?_⟩, ?_, ?_, ?_⟩
  · rw [do_command_set_eq, hset]
    rfl
  · rw [do_command_set_eq, hset]
    show lookup? (save_to_database _ "" v none now none).cache "" = _
    rw [save_to_database_cache, lookup_upsert, if_pos rfl]
  · rw [do_command_get_eq]
    simp [handle_get, getCmd, pyTruthy]
  · rw [do_command_delete_eq]
    simp [handle_delete, deleteCmd, pyTruthy]
  · rw [do_command_delete_all_eq]
    cases hdb : sda.dbOk <;> simp [handle_delete_all, hdb, outState, lookup?]

/-- Witness for C9 at `v = 7` and concrete states. -/
theorem empty_string_key_asymmetry_witness :
    (Val.int 7 ≠ Val.null) ∧
    ((outResp (do_command (setCmd (.str "") (.int 7) .null) ⟨[], [], true⟩ 1) =
      [("success", .bool true), ("key", .str ""), ("value", .int 7)] ∧
     lookup? (outState (do_command (setCmd (.str "") (.int 7) .null) ⟨[], [], true⟩ 1)).cache "" =
      some ⟨.int 7, .null, 1, none⟩) ∧
    do_command (getCmd (.str "")) ⟨[("", ⟨.int 7, .null, 1, none⟩)], [], true⟩ 2 =
      .resp [("error", .str "'key' is required for get command")]
        ⟨[("", ⟨.int 7, .null, 1, none⟩)], [], true⟩ ∧
    do_command (deleteCmd (.str "")) ⟨[("", ⟨.int 7, .null, 1, none⟩)], [], true⟩ 3 =
      .resp [("error", .str "'key' is required for delete command")]
        ⟨[("", ⟨.int 7, .null, 1, none⟩)], [], true⟩ ∧
    lookup? (outState (do_command deleteAllCmd
        ⟨[("", ⟨.int 7, .null, 1, none⟩)], [], true⟩ 4)).cache "" = none) :=
  ⟨by decide,
    empty_string_key_asymmetry (.int 7) ⟨[], [], true⟩
      ⟨[("", ⟨.int 7, .null, 1, none⟩)], [], true⟩
      ⟨[("", ⟨.int 7, .null, 1, none⟩)], [], true⟩
      ⟨[("", ⟨.int 7, .null, 1, none⟩)], [], true⟩
      1 2 3 4 (by decide)⟩

/-! ### C4: the sweep removes exactly the expired entries -/

theorem lookup_of_mem_nodup {α : Type} {m : List (String × α)}
    (h : (m.map Prod.fst).Nodup) {k : String} {v : α}
    (hm : (k, v) ∈ m) : lookup? m k = some v := by
  induction m with
  | nil => cases hm
  | cons a t ih =>
    rw [List.map_cons, List.nodup_cons] at h
    rcases List.mem_cons.1 hm with h1 | h1
    · rw [← h1]
      simp [lookup?]
    · have hka : k ≠ a.1 := by
        intro hkeq
        exact h.1 (hkeq ▸ List.mem_map_of_mem Prod.fst h1)
      obtain ⟨a1, a2⟩ := a
      simp only [lookup?, if_neg hka]
      exact ih h.2 h1

theorem lookup_eq_none_iff {α : Type} (m : List (String × α)) (k : String) :
    lookup? m k = none ↔ k ∉ m.map Prod.fst := by
  induction m with
  | nil => simp [lookup?]
  | cons a t ih =>
    obtain ⟨a1, a2⟩ := a
    by_cases hka : k = a1 <;> simp [lookup?, hka, ih]

/-- C4: running the expiry sweep at time `now` over a cache with unique
keys (as a Python dict guarantees) leaves in the cache exactly the entries
whose `expires_at` is absent or still in the future, and — when the
database works — removes from the persistent store exactly the keys whose
cached entry had expired; nothing else changes. -/
theorem sweep_removes_exactly_expired (s : State) (now : Rat)
    (h : (s.cache.map Prod.fst).Nodup) :
    (cleanup_expired_keys s now).cache =
      s.cache.filter (fun p => !isExpired p.2 now) ∧
    (cleanup_expired_keys s now).db =
      (if s.dbOk then
        s.db.filter (fun p =>
          match lookup? s.cache p.1 with
          | some e => !isExpired e now
          | none => true)
       else s.db) ∧
    (cleanup_expired_keys s now).dbOk = s.dbOk := by
  rw [cleanup_expired_keys_eq]
  refine ⟨?_, ?_, rfl⟩
  · refine List.filter_congr (fun p hp => ?_)
    have : p.1 ∈ expiredKeysOf s.cache now ↔ isExpired p.2 now = true := by
      rw [mem_expiredKeysOf]
      constructor
      · rintro ⟨e, hmem, hexp⟩
        have : (p.1, e) = p :=
          eq_of_mem_of_mem_nodup h hmem hp rfl
        rwa [show e = p.2 by rw [← this]] at hexp
      · intro hexp
        exact ⟨p.2, by simpa using hp, hexp⟩
    by_cases hexp : isExpired p.2 now = true
    · simp [hexp, this.2 hexp]
    · have : p.1 ∉ expiredKeysOf s.cache now := fun hmem => hexp (this.1 hmem)
      simp [this, hexp]
  · cases hdb : s.dbOk
    · simp
    · simp only [if_true]
      refine List.filter_congr (fun q _ => ?_)
      cases hl : lookup? s.cache q.1 with
      | some e =>
        have hmem : (q.1, e) ∈ s.cache := mem_of_lookup hl
        by_cases hexp : isExpired e now = true
        · have : q.1 ∈ expiredKeysOf s.cache now := mem_expiredKeysOf.2 ⟨e, hmem, hexp⟩
          simp [this, hexp]
        · have : q.1 ∉ expiredKeysOf s.cache now := by
            rw [mem_expiredKeysOf]
            rintro ⟨e2, hmem2, hexp2⟩
            have : (q.1, e2) = (q.1, e) :=
              eq_of_mem_of_mem_nodup h hmem2 hmem rfl
            exact hexp (by rwa [show e2 = e by rw [Prod.mk.injEq] at this; exact this.2] at hexp2)
          simp [this, hexp]
      | none =>
        have : q.1 ∉ expiredKeysOf s.cache now := by
          rw [mem_expiredKeysOf]
          rintro ⟨e2, hmem2, _⟩
          have := lookup_of_mem_nodup h hmem2
          rw [hl] at this
          cases this
        simp [this]

/-- Witness for C4: a three-entry cache where exactly the entry expiring
at `5 ≤ now = 5` is swept out of both tiers. -/
theorem sweep_removes_exactly_expired_witness :
    ((([("a", (⟨.int 1, .null, 0, none⟩ : Entry)), ("b", ⟨.int 2, .int 5, 0, some 5⟩),
        ("c", ⟨.int 3, .int 9, 0, some 9⟩)]).map Prod.fst).Nodup) ∧
    ((cleanup_expired_keys
        ⟨[("a", ⟨.int 1, .null, 0, none⟩), ("b", ⟨.int 2, .int 5, 0, some 5⟩),
          ("c", ⟨.int 3, .int 9, 0, some 9⟩)],
         [("a", ⟨.json (.int 1), none, 0, none⟩), ("b", ⟨.json (.int 2), some "5", 0, some 5⟩),
          ("c", ⟨.json (.int 3), some "9", 0, some 9⟩)], true⟩ 5).cache =
      ([("a", ⟨.int 1, .null, 0, none⟩), ("b", ⟨.int 2, .int 5, 0, some 5⟩),
        ("c", ⟨.int 3, .int 9, 0, some 9⟩)]).filter (fun p => !isExpired p.2 5) ∧
    (cleanup_expired_keys
        ⟨[("a", ⟨.int 1, .null, 0, none⟩), ("b", ⟨.int 2, .int 5, 0, some 5⟩),
          ("c", ⟨.int 3, .int 9, 0, some 9⟩)],
         [("a", ⟨.json (.int 1), none, 0, none⟩), ("b", ⟨.json (.int 2), some "5", 0, some 5⟩),
          ("c", ⟨.json (.int 3), some "9", 0, some 9⟩)], true⟩ 5).db =
      (if (true : Bool) then
        ([("a", (⟨.json (.int 1), none, 0, none⟩ : Row)), ("b", ⟨.json (.int 2), some "5", 0, some 5⟩),
          ("c", ⟨.json (.int 3), some "9", 0, some 9⟩)]).filter (fun p =>
          match lookup? [("a", (⟨.int 1, .null, 0, none⟩ : Entry)), ("b", ⟨.int 2, .int 5, 0, some 5⟩),
              ("c", ⟨.int 3, .int 9, 0, some 9⟩)] p.1 with
          | some e => !isExpired e 5
          | none => true)
       else [("a", ⟨.json (.int 1), none, 0, none⟩), ("b", ⟨.json (.int 2), some "5", 0, some 5⟩),
          ("c", ⟨.json (.int 3), some "9", 0, some 9⟩)]) ∧
    (cleanup_expired_keys
        ⟨[("a", ⟨.int 1, .null, 0, none⟩), ("b", ⟨.int 2, .int 5, 0, some 5⟩),
          ("c", ⟨.int 3, .int 9, 0, some 9⟩)],
         [("a", ⟨.json (.int 1), none, 0, none⟩), ("b", ⟨.json (.int 2), some "5", 0, some 5⟩),
          ("c", ⟨.json (.int 3), some "9", 0, some 9⟩)], true⟩ 5).dbOk = true) :=
  ⟨by decide,
    sweep_removes_exactly_expired
      ⟨[("a", ⟨.int 1, .null, 0, none⟩), ("b", ⟨.int 2, .int 5, 0, some 5⟩),
        ("c", ⟨.int 3, .int 9, 0, some 9⟩)],
       [("a", ⟨.json (.int 1), none, 0, none⟩), ("b", ⟨.json (.int 2), some "5", 0, some 5⟩),
        ("c", ⟨.json (.int 3), some "9", 0, some 9⟩)], true⟩ 5 (by decide)⟩

/-! ### C1: set followed by get returns a structurally equal value -/

/-- C1: for every non-null value (of any supported shape, nesting
included) and every valid (non-empty string) key, `set(k, v)` succeeds
and a subsequent `get(k)` — at any later time, the entry having no TTL —
answers success with a value structurally equal to `v`, from any starting
state and even when persistence fails. -/
theorem set_then_get_roundtrip (s : State) (k : String) (v : Val) (now now2 : Rat)
    (hk : k ≠ "") (hv : v ≠ Val.null) :
    outResp (do_command (setCmd (.str k) v .null) s now) =
      [("success", .bool true), ("key", .str k), ("value", v)] ∧
    respField (outResp (do_command (getCmd (.str k))
      (outState (do_command (setCmd (.str k) v .null) s now)) now2)) "success" =
      some (.bool true) ∧
    respField (outResp (do_command (getCmd (.str k))
      (outState (do_command (setCmd (.str k) v .null) s now)) now2)) "value" = some v := by
  have hset := handle_set_ok s k v .null now none none hv (by simp [ttlParse])
  rw [do_command_set_eq, hset]
  refine ⟨rfl, ?_⟩
  simp only [outState]
  have hcache2 : (save_to_database { s with cache := upsert s.cache k ⟨v, .null, now, none⟩ }
      k v none now none).cache = upsert s.cache k ⟨v, .null, now, none⟩ :=
    save_to_database_cache _ _ _ _ _ _
  have hknot : k ∉ expiredKeysOf (upsert s.cache k ⟨v, .null, now, none⟩) now2 := by
    rw [mem_expiredKeysOf]
    rintro ⟨e2, hmem, hexp⟩
    rcases List.mem_cons.1 hmem with h1 | h1
    · have he2 : e2 = ⟨v, .null, now, none⟩ := by
        rw [Prod.mk.injEq] at h1
        exact h1.2
      rw [he2] at hexp
      simp [isExpired] at hexp
    · exact not_mem_keys_eraseKey _ _ h1 rfl
  have hlook : lookup? (cleanup_expired_keys
      (save_to_database { s with cache := upsert s.cache k ⟨v, .null, now, none⟩ }
        k v none now none) now2).cache k = some ⟨v, .null, now, none⟩ := by
    rw [cleanup_expired_keys_eq]
    show lookup? (List.filter _ _) k = _
    rw [hcache2, lookup_filter_of_not_mem_keys _ hknot, lookup_upsert, if_pos rfl]
  have hget : handle_get (getCmd (.str k))
      (save_to_database { s with cache := upsert s.cache k ⟨v, .null, now, none⟩ }
        k v none now none) now2 =
      .resp (getOkResp k ⟨v, .null, now, none⟩)
        (cleanup_expired_keys
          (save_to_database { s with cache := upsert s.cache k ⟨v, .null, now, none⟩ }
            k v none now none) now2) := by
    simp only [handle_get, getCmd, pyTruthy, pyStr]
    rw [if_neg (by simp [hk]), hlook]
  rw [do_command_get_eq, hget]
  constructor
  · simp [outResp, respField, getOkResp, lookup?]
  · simp [outResp, respField, getOkResp, lookup?]

/-- Witness for C1: a nested value survives the round trip. -/
theorem set_then_get_roundtrip_witness :
    ("cfg" ≠ "") ∧
    ((Val.map [("users", .list [.int 1, .str "x", .bool true]), ("flag", .null)]) ≠ Val.null) ∧
    (outResp (do_command (setCmd (.str "cfg")
        (.map [("users", .list [.int 1, .str "x", .bool true]), ("flag", .null)]) .null)
        ⟨[], [], true⟩ 2) =
      [("success", .bool true), ("key", .str "cfg"),
       ("value", .map [("users", .list [.int 1, .str "x", .bool true]), ("flag", .null)])] ∧
    respField (outResp (do_command (getCmd (.str "cfg"))
      (outState (do_command (setCmd (.str "cfg")
        (.map [("users", .list [.int 1, .str "x", .bool true]), ("flag", .null)]) .null)
        ⟨[], [], true⟩ 2)) 9)) "success" = some (.bool true) ∧
    respField (outResp (do_command (getCmd (.str "cfg"))
      (outState (do_command (setCmd (.str "cfg")
        (.map [("users", .list [.int 1, .str "x", .bool true]), ("flag", .null)]) .null)
        ⟨[], [], true⟩ 2)) 9)) "value" =
      some (.map [("users", .list [.int 1, .str "x", .bool true]), ("flag", .null)])) :=
  ⟨by decide, by decide,
    set_then_get_roundtrip ⟨[], [], true⟩ "cfg"
      (.map [("users", .list [.int 1, .str "x", .bool true]), ("flag", .null)]) 2 9
      (by decide) (by decide)⟩

/-! ### C6: get = sweep, conditional reload, serve from cache -/

/-- What `get` answers once the cache has reached its final form: the
success payload for the cached entry, or the not-found error. -/
def getResponseFor (key : Val) (cache : List (String × Entry)) : Resp :=
  match lookup? cache (pyStr key) with
  | some e => getOkResp (pyStr key) e
  | none => notFoundResp key

theorem not_expired_of_lookup_cleanup (s : State) (now : Rat) (k2 : String) (e : Entry)
    (h : lookup? (cleanup_expired_keys s now).cache k2 = some e) :
    isExpired e now = false := by
  rw [cleanup_expired_keys_eq] at h
  have hfil := List.mem_filter.1 (mem_of_lookup h)
  cases hval : isExpired e now
  · rfl
  · exfalso
    have hmem : k2 ∈ expiredKeysOf s.cache now := mem_expiredKeysOf.2 ⟨e, hfil.1, hval⟩
    have hnot := hfil.2
    simp only [decide_eq_true_eq] at hnot
    exact hnot hmem

theorem not_expired_of_load (s : State) (now : Rat) (hc : s.cache = []) (k2 : String)
    (e : Entry) (h : lookup? (load_from_database s now).cache k2 = some e) :
    isExpired e now = false := by
  cases hdb : s.dbOk
  · rw [load_from_database, hdb] at h
    simp only [Bool.false_eq_true, if_false, hc, lookup?] at h
    exact Option.noConfusion h
  · rw [load_from_database] at h
    simp only [hdb, if_true, lookup_map_entry] at h
    obtain ⟨r, hr, hre⟩ := Option.map_eq_some'.1 h
    have hnr : notExpiredRow r now = true := filter_prop_of_lookup hr
    rw [← hre]
    cases hex : r.expires_at with
    | none => simp [isExpired, rowToEntry, hex]
    | some t =>
      rw [notExpiredRow, hex] at hnr
      simp only [decide_eq_true_eq] at hnr
      simp [isExpired, rowToEntry, hex, not_le.2 hnr]

/-- C6: for a valid (non-empty string) key, `get` never raises; its
response is exactly determined by the cache it leaves behind (the success
payload when the key is there, the not-found error otherwise); when the
cache was empty beforehand the final cache is the full reload from the
persistent store; and the final cache never holds an entry already expired
at `now` — the sweep ran before the value was served. -/
theorem get_serves_final_cache (s : State) (k : String) (now : Rat) (hk : k ≠ "") :
    outResp (do_command (getCmd (.str k)) s now) =
      getResponseFor (.str k) (outState (do_command (getCmd (.str k)) s now)).cache ∧
    isRaised (do_command (getCmd (.str k)) s now) = false ∧
    (s.cache = [] →
      (outState (do_command (getCmd (.str k)) s now)).cache =
        (load_from_database s now).cache) ∧
    (∀ k2 e, lookup? (outState (do_command (getCmd (.str k)) s now)).cache k2 = some e →
      isExpired e now = false) := by
  rw [do_command_get_eq]
  have hh : handle_get (getCmd (.str k)) s now =
      (let s1 := cleanup_expired_keys s now
       match lookup? s1.cache k with
       | some e => .resp (getOkResp k e) s1
       | none =>
         if s1.cache.isEmpty then
           let s2 := load_from_database s1 now
           match lookup? s2.cache k with
           | some e => .resp (getOkResp k e) s2
           | none => .resp (notFoundResp (.str k)) s2
         else .resp (notFoundResp (.str k)) s1) := by
    simp only [handle_get, getCmd, pyStr]
    rw [if_neg (by simp [pyTruthy, hk])]
  rw [hh]
  simp only []
  cases hl : lookup? (cleanup_expired_keys s now).cache k with
  | some e =>
    refine ⟨?_, rfl, ?_, ?_⟩
    · simp [outResp, outState, getResponseFor, pyStr, hl]
    · intro hc
      rw [cleanup_of_empty_cache s now hc, hc] at hl
      simp [lookup?] at hl
    · intro k2 e2 h2
      exact not_expired_of_lookup_cleanup s now k2 e2 h2
  | none =>
    cases hemp : (cleanup_expired_keys s now).cache.isEmpty
    · simp only [Bool.false_eq_true, if_false]
      refine ⟨?_, rfl, ?_, ?_⟩
      · simp [outResp, outState, getResponseFor, pyStr, hl]
      · intro hc
        rw [cleanup_of_empty_cache s now hc, hc] at hemp
        simp at hemp
      · intro k2 e2 h2
        exact not_expired_of_lookup_cleanup s now k2 e2 h2
    · simp only [if_true]
      have hc1 : (cleanup_expired_keys s now).cache = [] := List.isEmpty_iff.1 hemp
      cases hl2 : lookup? (load_from_database (cleanup_expired_keys s now) now).cache k
      · refine ⟨?_, rfl, ?_, ?_⟩
        · simp [outResp, outState, getResponseFor, pyStr, hl2]
        · intro hc
          rw [cleanup_of_empty_cache s now hc]
          rfl
        · intro k2 e2 h2
          simp only [outState] at h2
          exact not_expired_of_load _ now hc1 k2 e2 h2
      · refine ⟨?_, rfl, ?_, ?_⟩
        · simp [outResp, outState, getResponseFor, pyStr, hl2]
        · intro hc
          rw [cleanup_of_empty_cache s now hc]
          rfl
        · intro k2 e2 h2
          simp only [outState] at h2
          exact not_expired_of_load _ now hc1 k2 e2 h2

/-- Witness for C6: a get on an empty cache with one fresh and one stale
persisted row reloads and serves from the reloaded cache. -/
theorem get_serves_final_cache_witness :
    ("b" ≠ "") ∧
    (outResp (do_command (getCmd (.str "b"))
        ⟨[], [("b", ⟨.plain "x", none, 0, none⟩), ("old", ⟨.json (.int 9), some "1", 0, some 1⟩)],
         true⟩ 4) =
      getResponseFor (.str "b") (outState (do_command (getCmd (.str "b"))
        ⟨[], [("b", ⟨.plain "x", none, 0, none⟩), ("old", ⟨.json (.int 9), some "1", 0, some 1⟩)],
         true⟩ 4)).cache) :=
  ⟨by decide,
    (get_serves_final_cache
      ⟨[], [("b", ⟨.plain "x", none, 0, none⟩), ("old", ⟨.json (.int 9), some "1", 0, some 1⟩)],
       true⟩ "b" 4 (by decide)).1⟩

/-! ### C5: a fresh instance reloads the last value set for each live key -/

/-- The TypeCodec round trip: decoding what `_save_to_database` encoded
yields the original value, for every supported value shape. -/
theorem decodeStored_encodeValue (v : Val) : decodeStored (encodeValue v) = v := by
  cases v <;> rfl

/-- One `set` operation together with the wall-clock time at which it
runs. -/
structure TimedOp : Type where
  key : String
  value : Val
  ttl : Val
  time : Rat
deriving DecidableEq

/-- Run one `set` command and keep the resulting state. -/
def setStep (s : State) (op : TimedOp) : State :=
  outState (do_command (setCmd (.str op.key) op.value op.ttl) s op.time)

/-- Run a sequence of `set` commands in order. -/
def applySets (ops : List TimedOp) (s : State) : State :=
  ops.foldl setStep s

/-- A `set` the handler accepts: a non-null value, and a TTL that is
absent or parses as a number. -/
def setOk (op : TimedOp) : Prop :=
  op.value ≠ Val.null ∧ (op.ttl = Val.null ∨ (floatOfStr op.ttl).isSome = true)

instance (op : TimedOp) : Decidable (setOk op) := by
  unfold setOk
  infer_instance

/-- The database row a successful `set` writes for `op`. -/
def rowOf (op : TimedOp) : Row :=
  match ttlParse op.ttl op.time with
  | some (ts, ex) => ⟨encodeValue op.value, ts, op.time, ex⟩
  | none => ⟨encodeValue op.value, none, op.time, none⟩

/-- The operation that last set a given key, if any. -/
def lastSetOp (ops : List TimedOp) (k : String) : Option TimedOp :=
  ops.foldl (fun acc op => if op.key = k then some op else acc) none

/-- The value most recently set for a given key, if any. -/
def lastSetValue (ops : List TimedOp) (k : String) : Option Val :=
  (lastSetOp ops k).map TimedOp.value

theorem ttlParse_some_of_setOk (op : TimedOp) (h : setOk op) :
    ∃ ts ex, ttlParse op.ttl op.time = some (ts, ex) := by
  by_cases hnull : op.ttl = Val.null
  · exact ⟨none, none, by simp [ttlParse, hnull]⟩
  · rcases h.2 with hn | hs
    · exact absurd hn hnull
    · obtain ⟨f, hf⟩ := Option.isSome_iff_exists.1 hs
      exact ⟨some (pyStr op.ttl), some (ratAdd op.time f), by simp [ttlParse, hnull, hf]⟩

theorem rowOf_stored (op : TimedOp) : (rowOf op).stored = encodeValue op.value := by
  rcases h : ttlParse op.ttl op.time with _ | ⟨ts, ex⟩ <;> simp [rowOf, h]

theorem setStep_eq (s : State) (op : TimedOp) (h : setOk op) :
    setStep s op =
      ⟨upsert s.cache op.key ⟨op.value, op.ttl, op.time, (rowOf op).expires_at⟩,
       if s.dbOk then upsert s.db op.key (rowOf op) else s.db,
       s.dbOk⟩ := by
  obtain ⟨ts, ex, hp⟩ := ttlParse_some_of_setOk op h
  have hrow : rowOf op = ⟨encodeValue op.value, ts, op.time, ex⟩ := by
    simp [rowOf, hp]
  rw [setStep, do_command_set_eq, handle_set_ok s op.key op.value op.ttl op.time ts ex h.1 hp]
  cases hdb : s.dbOk <;>
    simp [outState, save_to_database, hdb, hrow, upsert, encodeValue]

theorem nodup_keys_upsert {α : Type} (m : List (String × α)) (k : String) (v : α)
    (h : (m.map Prod.fst).Nodup) : ((upsert m k v).map Prod.fst).Nodup := by
  rw [upsert, List.map_cons, List.nodup_cons]
  refine ⟨?_, ((List.filter_sublist _).map Prod.fst).nodup h⟩
  intro hmem
  obtain ⟨p, hp, hpk⟩ := List.mem_map.1 hmem
  exact not_mem_keys_eraseKey _ _ hp hpk

theorem foldl_lastSet_acc (t : List TimedOp) (k : String) (acc : Option TimedOp) :
    t.foldl (fun a op => if op.key = k then some op else a) acc =
      match t.foldl (fun a op => if op.key = k then some op else a) none with
      | some op => some op
      | none => acc := by
  induction t generalizing acc with
  | nil => simp
  | cons op t ih =>
    simp only [List.foldl_cons]
    by_cases hk : op.key = k
    · rw [if_pos hk, if_pos hk, ih (some op)]
      cases t.foldl (fun a op => if op.key = k then some op else a) none <;> simp
    · rw [if_neg hk, if_neg hk]
      exact ih acc

theorem applySets_db_lookup (ops : List TimedOp) (s : State) (k : String)
    (hdb : s.dbOk = true) (hok : ∀ op ∈ ops, setOk op) :
    lookup? (applySets ops s).db k =
      match lastSetOp ops k with
      | some op => some (rowOf op)
      | none => lookup? s.db k := by
  induction ops generalizing s with
  | nil => simp [applySets, lastSetOp]
  | cons op t ih =>
    have hop : setOk op := hok op (List.mem_cons_self op t)
    have hrest : ∀ o ∈ t, setOk o := fun o ho => hok o (List.mem_cons_of_mem _ ho)
    have hdb2 : (setStep s op).dbOk = true := by
      rw [setStep_eq s op hop]
      exact hdb
    have hstep : applySets (op :: t) s = applySets t (setStep s op) := by
      simp [applySets]
    rw [hstep, ih (setStep s op) hdb2 hrest]
    rw [setStep_eq s op hop]
    simp only [hdb, if_true]
    have hcons : lastSetOp (op :: t) k =
        match lastSetOp t k with
        | some o => some o
        | none => if op.key = k then some op else none := by
      rw [lastSetOp, List.foldl_cons, foldl_lastSet_acc]
      rfl
    rw [hcons]
    cases hlast : lastSetOp t k with
    | some o => simp
    | none =>
      simp only []
      rw [lookup_upsert]
      by_cases hk : op.key = k
      · rw [hk, if_pos rfl, if_pos rfl]
      · rw [if_neg hk, if_neg (fun hh => hk hh.symm)]

theorem applySets_db_nodup (ops : List TimedOp) (s : State)
    (hok : ∀ op ∈ ops, setOk op) (h : (s.db.map Prod.fst).Nodup) :
    ((applySets ops s).db.map Prod.fst).Nodup := by
  induction ops generalizing s with
  | nil => exact h
  | cons op t ih =>
    have hop : setOk op := hok op (List.mem_cons_self op t)
    have hrest : ∀ o ∈ t, setOk o := fun o ho => hok o (List.mem_cons_of_mem _ ho)
    have hstep : applySets (op :: t) s = applySets t (setStep s op) := by
      simp [applySets]
    rw [hstep]
    refine ih (setStep s op) hrest ?_
    rw [setStep_eq s op hop]
    cases hdb : s.dbOk
    · simpa using h
    · simpa using nodup_keys_upsert s.db op.key (rowOf op) h

theorem lookup_filter_nodup {α : Type} {m : List (String × α)}
    (h : (m.map Prod.fst).Nodup) (p : String × α → Bool) (k : String) :
    lookup? (m.filter p) k =
      match lookup? m k with
      | some v => if p (k, v) then some v else none
      | none => none := by
  induction m with
  | nil => simp [lookup?]
  | cons a t ih =>
    obtain ⟨a1, a2⟩ := a
    rw [List.map_cons, List.nodup_cons] at h
    by_cases hk : k = a1
    · subst hk
      by_cases hp : p (k, a2) = true
      · rw [List.filter_cons_of_pos hp]
        simp [lookup?, hp]
      · rw [List.filter_cons_of_neg hp]
        have hnone : lookup? t k = none := (lookup_eq_none_iff t k).2 h.1
        rw [ih h.2, hnone]
        simp [lookup?, hp]
    · by_cases hp : p (a1, a2) = true
      · rw [List.filter_cons_of_pos hp]
        simp only [lookup?, if_neg hk]
        exact ih h.2
      · rw [List.filter_cons_of_neg hp]
        rw [ih h.2]
        simp [lookup?, hk]

/-- C5: start from any state with a working database and unique row keys,
run any sequence of accepted `set` operations, then build a fresh instance
(empty cache) over the resulting table and reload at time `now2`.  Every
key whose stored row is non-expired at reload time comes back as a cache
entry whose value is structurally equal to the value most recently set for
that key. -/
theorem reload_reproduces_last_set (s : State) (ops : List TimedOp) (now2 : Rat)
    (k : String) (v : Val) (r : Row)
    (hdb : s.dbOk = true) (hnd : (s.db.map Prod.fst).Nodup)
    (hok : ∀ op ∈ ops, setOk op)
    (hlast : lastSetValue ops k = some v)
    (hrow : lookup? (applySets ops s).db k = some r)
    (hexp : notExpiredRow r now2 = true) :
    (lookup? (load_from_database ⟨[], (applySets ops s).db, true⟩ now2).cache k).map
      Entry.value = some v := by
  obtain ⟨op, hop, hval⟩ : ∃ op, lastSetOp ops k = some op ∧ op.value = v := by
    rw [lastSetValue] at hlast
    cases h : lastSetOp ops k with
    | none => rw [h] at hlast; cases hlast
    | some o =>
      rw [h] at hlast
      exact ⟨o, rfl, by simpa using hlast⟩
  have hr : r = rowOf op := by
    have hchar := applySets_db_lookup ops s k hdb hok
    rw [hrow, hop] at hchar
    simpa using hchar
  have hnd2 : ((applySets ops s).db.map Prod.fst).Nodup := applySets_db_nodup ops s hok hnd
  rw [load_from_database]
  simp only [if_true]
  rw [lookup_map_entry, lookup_filter_nodup hnd2, hrow]
  simp only [hexp, if_true]
  rw [hr, ← hval]
  simp [rowToEntry, rowOf_stored, decodeStored_encodeValue]

/-- Witness for C5: set `a := 1`, overwrite `a := "x"`, set `b := true`
with a 5-second TTL, reload fresh at time 3: key `a` reads back `"x"`. -/
theorem reload_reproduces_last_set_witness :
    ((⟨[], [], true⟩ : State).dbOk = true) ∧
    ((([] : List (String × Row)).map Prod.fst).Nodup) ∧
    (∀ op ∈ [(⟨"a", .int 1, .null, 0⟩ : TimedOp), ⟨"a", .str "x", .null, 1⟩,
        ⟨"b", .bool true, .int 5, 2⟩], setOk op) ∧
    lastSetValue [(⟨"a", .int 1, .null, 0⟩ : TimedOp), ⟨"a", .str "x", .null, 1⟩,
        ⟨"b", .bool true, .int 5, 2⟩] "a" = some (.str "x") ∧
    lookup? (applySets [(⟨"a", .int 1, .null, 0⟩ : TimedOp), ⟨"a", .str "x", .null, 1⟩,
        ⟨"b", .bool true, .int 5, 2⟩] ⟨[], [], true⟩).db "a" =
      some ⟨.plain "x", none, 1, none⟩ ∧
    notExpiredRow ⟨.plain "x", none, 1, none⟩ 3 = true ∧
    (lookup? (load_from_database
        ⟨[], (applySets [(⟨"a", .int 1, .null, 0⟩ : TimedOp), ⟨"a", .str "x", .null, 1⟩,
          ⟨"b", .bool true, .int 5, 2⟩] ⟨[], [], true⟩).db, true⟩ 3).cache "a").map
      Entry.value = some (.str "x") :=
  ⟨rfl, by decide, by decide, by decide, by decide, by decide,
    reload_reproduces_last_set ⟨[], [], true⟩
      [⟨"a", .int 1, .null, 0⟩, ⟨"a", .str "x", .null, 1⟩, ⟨"b", .bool true, .int 5, 2⟩]
      3 "a" (.str "x") ⟨.plain "x", none, 1, none⟩
      rfl (by decide) (by decide) (by decide) (by decide) (by decide)⟩

/-! ### Supporting fact: only delete_all can raise, and only on a failing
database -/

theorem isRaised_handle_set (cmd : Cmd) (s : State) (now : Rat) :
    isRaised (handle_set cmd s now) = false := by
  rw [handle_set]
  split
  · rfl
  · split <;> rfl

theorem isRaised_handle_get (cmd : Cmd) (s : State) (now : Rat) :
    isRaised (handle_get cmd s now) = false := by
  rw [handle_get]
  split
  · rfl
  · dsimp only
    split
    · rfl
    · split
      · split <;> rfl
      · rfl

theorem isRaised_handle_delete (cmd : Cmd) (s : State) :
    isRaised (handle_delete cmd s) = false := by
  rw [handle_delete]
  split <;> rfl

/-- `do_command` raises only for `delete_all` on a failing database:
every other command — and `delete_all` when persistence works — comes
back as a structured response. -/
theorem no_raise_except_delete_all_on_db_failure (cmd : Cmd) (s : State) (now : Rat)
    (h : cmd.command ≠ Val.str "delete_all" ∨ s.dbOk = true) :
    isRaised (do_command cmd s now) = false := by
  rw [do_command]
  split
  · exact isRaised_handle_set cmd s now
  · split
    · exact isRaised_handle_get cmd s now
    · split
      · exact isRaised_handle_delete cmd s
      · split
        · rename_i hda
          rcases h with hcmd | hdb
          · exact absurd hda hcmd
          · simp [handle_delete_all, hdb, isRaised]
        · rfl
